import Mathlib

/-!
Verification of the Neo-Agent RAG backend (Node/TypeScript sources).

The development shallowly embeds the TypeScript sources of the repository:
values of JavaScript dynamic type are modelled by the inductive `Json`
(JSON.parse never yields `undefined`, so `undefined` is modelled by `none` in
an `Option Json` where a value may be absent); JavaScript numbers are
modelled as exact rationals; strings are Lean strings, manipulated through
their character lists so that every operation is executable by kernel
reduction.  The mutable sqlite ledger is modelled by a record of tables, and
each service method becomes a pure function from the ledger (and the call
arguments) to its result and the updated ledger.  External collaborators
(the vector index, the LLM, uuid generation, the wall clock) enter as
explicit function parameters.
-/

namespace NeoAgent

/-! ## JavaScript string helpers, modelled on character lists -/

/-- Whitespace recognised by `String.prototype.trim` (the characters the
sources can realistically meet). -/
def jsWsChar (c : Char) : Bool :=
  c = ' ' ∨ c = '\t' ∨ c = '\n' ∨ c = '\r' ∨ c = '\x0b' ∨ c = '\x0c' ∨ c = '\xa0'

/-- Embedding of `s.trim()` on the character list of `s`. -/
def jsTrim (cs : List Char) : List Char :=
  ((cs.dropWhile jsWsChar).reverse.dropWhile jsWsChar).reverse

/-- Fuel-driven worker for `removeAll`; the fuel never runs out when it
starts at the length of the scanned list. -/
def removeAllF (pat : List Char) : ℕ → List Char → List Char
  | 0, cs => cs
  | _ + 1, [] => []
  | f + 1, c :: cs =>
    if pat.isPrefixOf (c :: cs) ∧ 0 < pat.length then
      removeAllF pat f ((c :: cs).drop pat.length)
    else
      c :: removeAllF pat f cs

/-- Embedding of `s.replace(/pat/g, "")`: removes every non-overlapping
occurrence of `pat`, scanning left to right. -/
def removeAll (pat cs : List Char) : List Char :=
  removeAllF pat cs.length cs

/-! ## JavaScript values

`Json.num` keeps the numeric payload as an exact rational; the sources never
rely on floating-point rounding for the properties verified here. -/

inductive Json where
  | null : Json
  | bool : Bool → Json
  | num : ℚ → Json
  | str : String → Json
  | arr : List Json → Json
  | obj : List (String × Json) → Json
deriving Repr

/-- Truthiness of a JavaScript value (`NaN` and `-0` do not arise from the
exact-rational embedding). -/
def truthy : Json → Bool
  | .null => false
  | .bool b => b
  | .num q => decide (q ≠ 0)
  | .str s => decide (s ≠ "")
  | .arr _ => true
  | .obj _ => true

/-- Property lookup on the field list of a parsed JSON object.  JSON.parse
keeps the last of several identically-named fields, hence the backwards
search. -/
def jsGet (fields : List (String × Json)) (k : String) : Option Json :=
  (fields.reverse.find? fun p => decide (p.1 = k)).map Prod.snd

/-- Embedding of the property access `v.k`: `undefined` (`none`) on every
non-object; the caller is responsible for the `null` case, where JavaScript
throws instead. -/
def jsField (v : Json) (k : String) : Option Json :=
  match v with
  | .obj fields => jsGet fields k
  | _ => none

/-- Truthiness of a possibly-undefined value. -/
def jsTruthyOpt : Option Json → Bool
  | none => false
  | some v => truthy v

/-! ## JSON.parse, embedded as a fuel-driven recursive-descent reader -/

/-- Whitespace of the JSON grammar. -/
def jsonWs (c : Char) : Bool :=
  c = ' ' ∨ c = '\t' ∨ c = '\n' ∨ c = '\r'

/-- Drops leading JSON whitespace. -/
def skipWs : List Char → List Char
  | [] => []
  | c :: cs => if jsonWs c then skipWs cs else c :: cs

/-- Numeric value of a hexadecimal digit. -/
def hexVal : Char → Option ℕ
  | c =>
    if '0' ≤ c ∧ c ≤ '9' then some (c.toNat - '0'.toNat)
    else if 'a' ≤ c ∧ c ≤ 'f' then some (c.toNat - 'a'.toNat + 10)
    else if 'A' ≤ c ∧ c ≤ 'F' then some (c.toNat - 'A'.toNat + 10)
    else none

/-- Reads the body of a JSON string literal after its opening quote,
handling the escape sequences JSON.parse accepts; fails exactly where
JSON.parse raises a SyntaxError. -/
def parseStrBody : List Char → List Char → Option (String × List Char)
  | _, [] => none
  | acc, c :: cs =>
    if c = '"' then some (String.mk acc.reverse, cs)
    else if c = '\\' then
      match cs with
      | [] => none
      | e :: cs₂ =>
        if e = '"' then parseStrBody ('"' :: acc) cs₂
        else if e = '\\' then parseStrBody ('\\' :: acc) cs₂
        else if e = '/' then parseStrBody ('/' :: acc) cs₂
        else if e = 'n' then parseStrBody ('\n' :: acc) cs₂
        else if e = 't' then parseStrBody ('\t' :: acc) cs₂
        else if e = 'r' then parseStrBody ('\r' :: acc) cs₂
        else if e = 'b' then parseStrBody ('\x08' :: acc) cs₂
        else if e = 'f' then parseStrBody ('\x0c' :: acc) cs₂
        else if e = 'u' then
          match cs₂ with
          | h₁ :: h₂ :: h₃ :: h₄ :: cs₃ =>
            match hexVal h₁, hexVal h₂, hexVal h₃, hexVal h₄ with
            | some a, some b, some c₃, some d =>
              parseStrBody (Char.ofNat (((a * 16 + b) * 16 + c₃) * 16 + d) :: acc) cs₃
            | _, _, _, _ => none
          | _ => none
        else none
    else if c.toNat < 32 then none
    else parseStrBody (c :: acc) cs

/-- Reads a maximal run of decimal digits as a natural number together with
how many digits were read. -/
def readDigits : List Char → ℕ → ℕ → (ℕ × ℕ × List Char)
  | [], acc, k => (acc, k, [])
  | c :: cs, acc, k =>
    if '0' ≤ c ∧ c ≤ '9' then readDigits cs (acc * 10 + (c.toNat - '0'.toNat)) (k + 1)
    else (acc, k, c :: cs)

/-- Reads a JSON number (sign, integer part without leading zeros, optional
fraction, optional exponent) as an exact rational. -/
def parseNum (cs : List Char) : Option (ℚ × List Char) :=
  let (neg, cs₁) :=
    match cs with
    | '-' :: rest => (true, rest)
    | _ => (false, cs)
  match cs₁ with
  | [] => none
  | c :: rest =>
    if ¬ ('0' ≤ c ∧ c ≤ '9') then none
    else
      let (intPart, cs₂) :=
        if c = '0' then ((0 : ℕ), rest)
        else
          let (n, _, r) := readDigits (c :: rest) 0 0
          (n, r)
      if c = '0' then
        match rest with
        | d :: _ => if '0' ≤ d ∧ d ≤ '9' then none else parseNumTail neg intPart cs₂
        | [] => parseNumTail neg intPart cs₂
      else parseNumTail neg intPart cs₂
where
  /-- Fraction and exponent of a JSON number, applied to the integer part. -/
  parseNumTail (neg : Bool) (intPart : ℕ) (cs : List Char) : Option (ℚ × List Char) :=
    let (mantissa, fracLen, cs₁) :=
      match cs with
      | '.' :: rest =>
        let (fr, k, r) := readDigits rest 0 0
        (intPart * 10 ^ k + fr, k, r)
      | _ => (intPart, 0, cs)
    let fracOk : Bool :=
      match cs with
      | '.' :: _ => decide (0 < fracLen)
      | _ => true
    if ¬ fracOk then none
    else
      match cs₁ with
      | 'e' :: rest => parseExp neg mantissa fracLen rest
      | 'E' :: rest => parseExp neg mantissa fracLen rest
      | _ => some (finishNum neg mantissa fracLen 0 true, cs₁)
  /-- Exponent part after the letter `e`. -/
  parseExp (neg : Bool) (mantissa fracLen : ℕ) (cs : List Char) : Option (ℚ × List Char) :=
    let (expNeg, cs₁) :=
      match cs with
      | '-' :: rest => (true, rest)
      | '+' :: rest => (false, rest)
      | _ => (false, cs)
    let (e, k, cs₂) := readDigits cs₁ 0 0
    if k = 0 then none else some (finishNum neg mantissa fracLen e (¬ expNeg), cs₂)
  /-- Assembles the rational value of the number. -/
  finishNum (neg : Bool) (mantissa fracLen expVal : ℕ) (expPos : Bool) : ℚ :=
    let base : ℚ := (mantissa : ℚ) / (10 : ℚ) ^ fracLen
    let scaled : ℚ := if expPos then base * (10 : ℚ) ^ expVal else base / (10 : ℚ) ^ expVal
    if neg then -scaled else scaled

mutual

/-- Reads one JSON value.  The fuel only bounds the recursion depth; the
top-level entry point supplies enough of it for any input. -/
def parseVal : ℕ → List Char → Option (Json × List Char)
  | 0, _ => none
  | f + 1, cs =>
    match skipWs cs with
    | [] => none
    | c :: rest =>
      if c = 'n' then
        if ['u', 'l', 'l'].isPrefixOf rest then some (.null, rest.drop 3) else none
      else if c = 't' then
        if ['r', 'u', 'e'].isPrefixOf rest then some (.bool true, rest.drop 3) else none
      else if c = 'f' then
        if ['a', 'l', 's', 'e'].isPrefixOf rest then some (.bool false, rest.drop 4) else none
      else if c = '"' then
        (parseStrBody [] rest).map fun p => (.str p.1, p.2)
      else if c = '[' then
        match skipWs rest with
        | ']' :: r₂ => some (.arr [], r₂)
        | _ => parseArrItems f rest []
      else if c = '\x7b' then
        match skipWs rest with
        | '\x7d' :: r₂ => some (.obj [], r₂)
        | _ => parseObjItems f rest []
      else
        (parseNum (c :: rest)).map fun p => (.num p.1, p.2)

/-- Reads the comma-separated items of a JSON array after its bracket. -/
def parseArrItems : ℕ → List Char → List Json → Option (Json × List Char)
  | 0, _, _ => none
  | f + 1, cs, acc =>
    match parseVal f cs with
    | none => none
    | some (v, r) =>
      match skipWs r with
      | ',' :: r₂ => parseArrItems f r₂ (v :: acc)
      | ']' :: r₂ => some (.arr (v :: acc).reverse, r₂)
      | _ => none

/-- Reads the comma-separated members of a JSON object after its brace. -/
def parseObjItems : ℕ → List Char → List (String × Json) → Option (Json × List Char)
  | 0, _, _ => none
  | f + 1, cs, acc =>
    match skipWs cs with
    | '"' :: r =>
      match parseStrBody [] r with
      | none => none
      | some (k, r₁) =>
        match skipWs r₁ with
        | ':' :: r₂ =>
          match parseVal f r₂ with
          | none => none
          | some (v, r₃) =>
            match skipWs r₃ with
            | ',' :: r₄ => parseObjItems f r₄ ((k, v) :: acc)
            | '\x7d' :: r₄ => some (.obj ((k, v) :: acc).reverse, r₄)
            | _ => none
        | _ => none
    | _ => none

end

/-- Embedding of `JSON.parse`: `none` exactly where JSON.parse throws a
SyntaxError. -/
def jsonParse (s : String) : Option Json :=
  match parseVal (2 * s.data.length + 2) s.data with
  | some (v, rest) => if skipWs rest = [] then some v else none
  | none => none

/-! ## utils/formatter.ts -/

/-- One block of structured answer output, as built by
`parseLlmJsonResponse`: each field holds the JavaScript value of the
homonymous property (`none` models `undefined`). -/
structure Block where
  type : Json
  content : Option Json
  items : Option Json
  language : Option Json
deriving Repr

/-- Embedding of the fence-stripping prelude of `parseLlmJsonResponse`:
`substring(7)` after a leading three-backtick-json marker, `substring(3)`
after a bare three-backtick marker, and dropping a trailing marker. -/
def stripFences (cs : List Char) : List Char :=
  let cs₁ :=
    if ("```json".data).isPrefixOf cs then cs.drop 7
    else if ("```".data).isPrefixOf cs then cs.drop 3
    else cs
  if ("```".data).isSuffixOf cs₁ then cs₁.take (cs₁.length - 3) else cs₁

/-- Cleaning applied to the raw LLM output before `JSON.parse`: trim, strip
code fences, trim again. -/
def cleanLlmOutput (s : String) : String :=
  String.mk (jsTrim (stripFences (jsTrim s.data)))

/-- Embedding of `Array.prototype.map` over a callback that can throw:
`none` when some element throws, propagating to the enclosing catch. -/
def mapOrThrow (f : α → Option β) : List α → Option (List β)
  | [] => some []
  | x :: xs =>
    match f x, mapOrThrow f xs with
    | some y, some ys => some (y :: ys)
    | _, _ => none

/-- Embedding of the block-building callback `b => ({type: b.type ||
'paragraph', content: b.content, items: b.items, language: b.language})`:
`none` models the TypeError thrown on a `null` element. -/
def blockOfJson : Json → Option Block
  | .null => none
  | .obj fields =>
    some
      { type :=
          match jsGet fields "type" with
          | some v => if truthy v then v else .str "paragraph"
          | none => .str "paragraph"
        content := jsGet fields "content"
        items := jsGet fields "items"
        language := jsGet fields "language" }
  | _ => some ⟨.str "paragraph", none, none, none⟩

/-- Fallback block list wrapping the raw LLM output as one paragraph. -/
def rawParagraph (llmOutput : String) : List Block :=
  [⟨.str "paragraph", some (.str llmOutput), none, none⟩]

/-- Embedding of `parseLlmJsonResponse` from `utils/formatter.ts`. -/
def parseLlmJsonResponse (llmOutput : String) : List Block :=
  match jsonParse (cleanLlmOutput llmOutput) with
  | some (.obj fields) =>
    match jsGet fields "blocks" with
    | some bv =>
      if truthy bv then
        match bv with
        | .arr bs =>
          match mapOrThrow blockOfJson bs with
          | some blocks => blocks
          | none => rawParagraph llmOutput
        | _ => rawParagraph llmOutput
      else rawParagraph llmOutput
    | none => rawParagraph llmOutput
  | some _ => rawParagraph llmOutput
  | none => rawParagraph llmOutput

/-- Provenance record attached to an answer (`types/chat.ts` Source). -/
structure Source where
  title : String
  source : String
  score : ℚ
deriving Repr, DecidableEq

/-- Shape of the raw source objects produced by the context builder before
`formatSources` normalises them; optional fields model absent or empty
metadata. -/
structure SourceRaw where
  title : Option String
  source : Option String
  score : ℚ
deriving Repr, DecidableEq

/-- Embedding of `formatSources`: each `||` default written out on the
option (an empty string is falsy, hence also defaulted). -/
def formatSources (rawSources : List SourceRaw) : List Source :=
  rawSources.map fun s =>
    { title := match s.title with
        | some t => if t = "" then "Unknown" else t
        | none => "Unknown"
      source := match s.source with
        | some t => if t = "" then "Unknown" else t
        | none => "Unknown"
      score := s.score }

/-- Complete response of the chat route (`types/chat.ts` ChatResponse). -/
structure ChatResponse where
  blocks : List Block
  sources : List Source
  mode : String
  request_id : String
deriving Repr

/-- Embedding of `createFallbackResponse` from `utils/formatter.ts`. -/
def createFallbackResponse : ChatResponse :=
  { blocks :=
      [⟨.str "paragraph",
        some (.str ("I don't have that information in Cogneoverse knowledge. " ++
          "Try asking about general topics, or rephrase your question about our internal projects.")),
        none, none⟩]
    sources := []
    mode := "rag"
    request_id := "" }

/-! ## utils/keywords.ts (not among the staged sources)

The file `backend-node/src/utils/keywords.ts` is imported by both hybrid
search implementations but is not under `src/`; the two functions below are
modelled from the spec. -/

/-- Splits a character list into maximal runs of alphanumeric characters. -/
def splitAlnumRuns : List Char → List Char → List String
  | [], acc => if acc = [] then [] else [String.mk acc.reverse]
  | c :: cs, acc =>
    if c.isAlphanum then splitAlnumRuns cs (c :: acc)
    else if acc = [] then splitAlnumRuns cs []
    else String.mk acc.reverse :: splitAlnumRuns cs []

/-- Modelled from the spec: `extractKeywords(text) → set of terms`:
lowercase, split on non-alphanumerics, drop stopwords and tokens of length
< 3 (§4.3).  The stopword list lives in the missing `utils/keywords.ts`, so
it is taken as a parameter. -/
def extractKeywords (stopwords : List String) (text : String) : List String :=
  ((splitAlnumRuns (text.data.map Char.toLower) []).filter fun t =>
    decide (3 ≤ t.length) && decide (t ∉ stopwords)).dedup

/-- Substring test on character lists (case handled by the caller). -/
def containsSub (hay needle : List Char) : Bool :=
  (List.range (hay.length + 1)).any fun i => needle.isPrefixOf (hay.drop i)

/-- Modelled from the spec: `calculateKeywordScore(keywords, documentText)`:
fraction of distinct query keywords appearing as substrings
(case-insensitively) in the document text; 0 for no keywords (§4.3). -/
def calculateKeywordScore (keywords : List String) (documentText : String) : ℚ :=
  if keywords = [] then 0
  else
    ((keywords.filter fun k =>
        containsSub (documentText.data.map Char.toLower) (k.data.map Char.toLower)).length : ℚ) /
      (keywords.length : ℚ)

/-! ## pinecone.service.ts data -/

/-- Metadata record attached to a vector-index match; only the keys the
sources consume are modelled, with `none` for an absent key. -/
structure Metadata where
  text : Option String
  title : Option String
  source : Option String
  tags : Option (List String)
deriving Repr, DecidableEq

/-- Metadata with every key absent. -/
def Metadata.empty : Metadata := ⟨none, none, none, none⟩

/-- One raw hit from the vector index (`pinecone.service.ts` Match). -/
structure Match where
  id : String
  score : ℚ
  metadata : Metadata
deriving Repr, DecidableEq

/-- Text concatenation used for keyword scoring (`extractTextContent` in
both hybrid service versions); a JavaScript truthiness test guards each
push, so empty strings are skipped. -/
def extractTextContent (m : Metadata) : String :=
  let parts : List String :=
    (match m.text with | some t => if t = "" then [] else [t] | none => []) ++
    (match m.title with | some t => if t = "" then [] else [t] | none => []) ++
    (match m.source with | some t => if t = "" then [] else [t] | none => []) ++
    (match m.tags with | some ts => [String.intercalate " " ts] | none => [])
  String.intercalate " " parts

/-! ## Stable sorting

Both hybrid services sort with `Array.prototype.sort`, which ECMAScript
requires to be stable; `List.insertionSort` is the standard stable sort, so
it models the call exactly for the comparator's total preorder. -/

/-- Comparator relation of `(a, b) => b.finalScore - a.finalScore`:
`descBy key a b` holds when `a` may stay before `b`. -/
def descBy (key : α → ℚ) (a b : α) : Prop := key b ≤ key a

instance (key : α → ℚ) : DecidableRel (descBy key) := fun a b => by
  unfold descBy; infer_instance

end NeoAgent

namespace NeoAgent.Hybrid002

/-- Result record of the feedback-aware hybrid service
(`src/unnamed/part_002` HybridSearchResult). -/
structure HybridSearchResult where
  id : String
  semanticScore : ℚ
  keywordScore : ℚ
  feedbackScore : ℚ
  finalScore : ℚ
  metadata : Metadata
  appearsInBoth : Bool
deriving Repr, DecidableEq

/-- Weight triple of the score fusion. -/
structure Weights where
  alpha : ℚ
  beta : ℚ
  gamma : ℚ
deriving Repr, DecidableEq

/-- Embedding of `DEFAULT_WEIGHTS` from `src/unnamed/part_002`. -/
def DEFAULT_WEIGHTS : Weights := ⟨6/10, 3/10, 1/10⟩

/-- Embedding of `initialFusion`: one candidate per first occurrence of an
id, semantic and keyword scores filled in, feedback and final scores left at
their placeholder 0. -/
def initialFusion (keywords : List String) : List Match → List String → List HybridSearchResult
  | [], _ => []
  | m :: rest, seen =>
    if m.id ∈ seen then initialFusion keywords rest seen
    else
      let keywordScore := if keywords.length > 0 then calculateKeywordScore keywords (extractTextContent m.metadata) else 0
      { id := m.id
        semanticScore := m.score
        keywordScore := keywordScore
        feedbackScore := 0
        finalScore := 0
        metadata := m.metadata
        appearsInBoth := decide (keywordScore > 3/10) } ::
        initialFusion keywords rest (m.id :: seen)

/-- Final fusion score of one candidate under the given weights, after its
feedback score has been fetched (`src/unnamed/part_002`, lines 72-82). -/
def fuseFinal (w : Weights) (c : HybridSearchResult) : HybridSearchResult :=
  let boost : ℚ := if c.appearsInBoth then 5/100 else 0
  { c with finalScore := w.alpha * c.semanticScore + w.beta * c.keywordScore + w.gamma * c.feedbackScore + boost }

/-- Embedding of `performHybridSearch` from `src/unnamed/part_002`.  The
vector index and the per-document feedback score of
`feedbackService.getDocumentGlobalScore` enter as the oracles `index` and
`fb` (a per-candidate failure is caught in the source and scored 0, so an
oracle of total functions loses no behaviour). -/
def performHybridSearch (index : String → ℕ → List Match) (fb : String → ℚ)
    (query : String) (topK : ℕ) (w : Weights) (stopwords : List String) :
    List HybridSearchResult :=
  let keywords := extractKeywords stopwords query
  let semanticMatches := index query (topK * 3)
  let candidates := initialFusion keywords semanticMatches []
  let withFb := candidates.map fun c => { c with feedbackScore := fb c.id }
  let scored := withFb.map (fuseFinal w)
  (scored.insertionSort (descBy HybridSearchResult.finalScore)).take topK

/-- Embedding of `getHighestScore` from `src/unnamed/part_002`. -/
def getHighestScore (results : List HybridSearchResult) : Option ℚ :=
  (results.map HybridSearchResult.finalScore).max?

end NeoAgent.Hybrid002

namespace NeoAgent.HybridNode

/-- Result record of the backend-node hybrid service
(`backend-node/src/services/hybrid.service.ts` HybridSearchResult): no
feedback component. -/
structure HybridSearchResult where
  id : String
  semanticScore : ℚ
  keywordScore : ℚ
  finalScore : ℚ
  metadata : Metadata
  appearsInBoth : Bool
deriving Repr, DecidableEq

/-- Embedding of `SEMANTIC_WEIGHT`. -/
def SEMANTIC_WEIGHT : ℚ := 65/100

/-- Embedding of `KEYWORD_WEIGHT`. -/
def KEYWORD_WEIGHT : ℚ := 35/100

/-- Embedding of `BOTH_MATCH_BOOST`. -/
def BOTH_MATCH_BOOST : ℚ := 1/10

/-- Embedding of `fuseResults` from
`backend-node/src/services/hybrid.service.ts`: dedup by id, keyword
scoring, fusion with the 0.65/0.35 weights and the capped boost. -/
def fuseResults (keywords : List String) : List Match → List String → List HybridSearchResult
  | [], _ => []
  | m :: rest, seen =>
    if m.id ∈ seen then fuseResults keywords rest seen
    else
      let keywordScore := if keywords.length > 0 then calculateKeywordScore keywords (extractTextContent m.metadata) else 0
      let appearsInBoth := decide (keywordScore > 3/10)
      let base := SEMANTIC_WEIGHT * m.score + KEYWORD_WEIGHT * keywordScore
      let finalScore := if appearsInBoth then min 1 (base + BOTH_MATCH_BOOST) else base
      { id := m.id
        semanticScore := m.score
        keywordScore := keywordScore
        finalScore := finalScore
        metadata := m.metadata
        appearsInBoth := appearsInBoth } ::
        fuseResults keywords rest (m.id :: seen)

/-- Embedding of `performHybridSearch` from
`backend-node/src/services/hybrid.service.ts`: candidate pool of `topK * 2`
matches, fusion, stable sort by final score, truncation. -/
def performHybridSearch (index : String → ℕ → List Match)
    (query : String) (topK : ℕ) (stopwords : List String) :
    List HybridSearchResult :=
  let keywords := extractKeywords stopwords query
  let semanticMatches := index query (topK * 2)
  let results := fuseResults keywords semanticMatches []
  (results.insertionSort (descBy HybridSearchResult.finalScore)).take topK

/-- Embedding of `getHighestScore` from the backend-node hybrid service. -/
def getHighestScore (results : List HybridSearchResult) : Option ℚ :=
  (results.map HybridSearchResult.finalScore).max?

end NeoAgent.HybridNode

namespace NeoAgent

/-! ## The sqlite ledger (tables of utils/db.ts, rows as the services write
them) -/

/-- Row of the `queries` table. -/
structure QueryRow where
  id : String
  text : String
  timestamp : ℤ
deriving Repr, DecidableEq

/-- Row of the `hops` table. -/
structure HopRow where
  id : String
  query_id : String
  hop_order : ℕ
  sub_query : String
  reasoning : String
  status : String
deriving Repr, DecidableEq

/-- Row of the `hop_documents` table. -/
structure HopDocRow where
  id : String
  hop_id : String
  document_id : String
  dense_score : ℚ
  sparse_score : ℚ
  rank_position : ℕ
deriving Repr, DecidableEq

/-- Row of the `responses` table (`user_feedback` defaults to 0,
`user_correction` to NULL). -/
structure ResponseRow where
  id : String
  query_id : String
  content : String
  timestamp : ℤ
  user_feedback : ℤ
  user_correction : Option String
deriving Repr, DecidableEq

/-- Row of the `evidence_chains` table; the two JSON-encoded id arrays are
kept as lists. -/
structure ChainRow where
  id : String
  response_id : String
  hop_ids : List String
  document_ids : List String
  confidence_score : ℚ
deriving Repr, DecidableEq

/-- The whole ledger, each table in row-insertion order. -/
structure Db where
  queries : List QueryRow
  hops : List HopRow
  hop_documents : List HopDocRow
  responses : List ResponseRow
  evidence_chains : List ChainRow
deriving Repr, DecidableEq

/-- The empty ledger. -/
def Db.empty : Db := ⟨[], [], [], [], []⟩

/-! ## feedback.service.ts -/

/-- Embedding of `logQuery`. -/
def logQuery (db : Db) (queryId text : String) (now : ℤ) : Db :=
  { db with queries := db.queries ++ [⟨queryId, text, now⟩] }

/-- Embedding of `logHop` (status starts at `pending`). -/
def logHop (db : Db) (hopId queryId : String) (hopOrder : ℕ) (subQuery reasoning : String) : Db :=
  { db with hops := db.hops ++ [⟨hopId, queryId, hopOrder, subQuery, reasoning, "pending"⟩] }

/-- Embedding of `logHopDocument`; the uuid the source draws for the row id
is passed in by the caller. -/
def logHopDocument (db : Db) (rowId hopId documentId : String) (dense sparse : ℚ) (rank : ℕ) : Db :=
  { db with hop_documents := db.hop_documents ++ [⟨rowId, hopId, documentId, dense, sparse, rank⟩] }

/-- Embedding of `logResponse`. -/
def logResponse (db : Db) (responseId queryId content : String) (now : ℤ) : Db :=
  { db with responses := db.responses ++ [⟨responseId, queryId, content, now, 0, none⟩] }

/-- Embedding of `logEvidenceChain`. -/
def logEvidenceChain (db : Db) (rowId responseId : String) (hopIds documentIds : List String) (confidence : ℚ) : Db :=
  { db with evidence_chains := db.evidence_chains ++ [⟨rowId, responseId, hopIds, documentIds, confidence⟩] }

/-- Embedding of the `UPDATE responses SET user_feedback = ?,
user_correction = ? WHERE id = ?` statement of `submitFeedback`; the bound
correction is `correction || null`, so an empty string becomes NULL. -/
def applyFeedbackUpdate (db : Db) (responseId : String) (feedback : ℤ) (correction : Option String) : Db :=
  let bound : Option String :=
    match correction with
    | some c => if c = "" then none else some c
    | none => none
  { db with responses := db.responses.map fun r =>
      if r.id = responseId then { r with user_feedback := feedback, user_correction := bound } else r }

/-- Embedding of the `UPDATE hops SET status = 'failed' WHERE id = ?`
statement. -/
def markHopFailed (db : Db) (hopId : String) : Db :=
  { db with hops := db.hops.map fun h =>
      if h.id = hopId then { h with status := "failed" } else h }

/-- Rows of `SELECT dense_score, sparse_score FROM hop_documents WHERE
hop_id = ?`. -/
def hopDocsOf (db : Db) (hopId : String) : List HopDocRow :=
  db.hop_documents.filter fun d => decide (d.hop_id = hopId)

/-- Average combined document score of a hop, `none` for a hop without
`hop_documents` rows (which the weakest-link loop skips with `continue`). -/
def hopScore (db : Db) (hopId : String) : Option (String × ℚ) :=
  let docs := hopDocsOf db hopId
  if docs.length = 0 then none
  else some (hopId, (docs.map fun d => d.dense_score + d.sparse_score).sum / (docs.length : ℚ))

/-- One step of the weakest-link fold of `handleNegativeFeedback`: skip a
hop without documents, otherwise compare the average combined score with
the running minimum (strictly). -/
def weakestStep (db : Db) (acc : Option String × ℚ) (hopId : String) : Option String × ℚ :=
  match hopScore db hopId with
  | none => acc
  | some (h, avgScore) => if avgScore < acc.2 then (some h, avgScore) else acc

/-- Embedding of `handleNegativeFeedback`: find the evidence chain of the
response, fold the weakest-link heuristic over its hop ids starting from
`(null, 2.0)`, and mark the selected hop failed when one was selected.  The
final `if (worstHopId)` is a JavaScript truthiness test, so an empty-string
winning id is also skipped. -/
def handleNegativeFeedback (db : Db) (responseId : String) : Db :=
  match db.evidence_chains.find? fun c => decide (c.response_id = responseId) with
  | none => db
  | some chain =>
    match (chain.hop_ids.foldl (weakestStep db) (none, 2)).1 with
    | none => db
    | some worstHopId =>
      if worstHopId = "" then db else markHopFailed db worstHopId

/-- Embedding of `submitFeedback`: update the response row, run the
negative-feedback analysis when the feedback is −1.  The correction
injection goes to the embedding model and the vector index, never to the
ledger, so it has no effect on `Db`. -/
def submitFeedback (db : Db) (responseId : String) (feedback : ℤ) (correction : Option String) : Db :=
  let db₁ := applyFeedbackUpdate db responseId feedback correction
  if feedback = -1 then handleNegativeFeedback db₁ responseId else db₁

/-- Specification-side selection of the weakest hop: among the hops of the
chain that own at least one `hop_documents` row, take the minimum average
combined score; the first hop in chain order attaining that minimum is
selected, provided the minimum is strictly below 2. -/
def weakestHopSpec (db : Db) (hopIds : List String) : Option String :=
  let scored := hopIds.filterMap (hopScore db)
  match (scored.map Prod.snd).min? with
  | none => none
  | some m =>
    if m < 2 then (scored.find? fun p => decide (p.2 = m)).map Prod.fst else none

/-- The `queries × hops × hop_documents` part of the join inside
`getDocumentGlobalScore`, for one response row: one `hop_documents` row per
join path from the response to the document. -/
def pathRowsFor (db : Db) (r : ResponseRow) (documentId : String) : List HopDocRow :=
  (db.queries.filter fun q => decide (q.id = r.query_id)).flatMap fun q =>
    (db.hops.filter fun h => decide (h.query_id = q.id)).flatMap fun h =>
      db.hop_documents.filter fun hd =>
        decide (hd.hop_id = h.id) && decide (hd.document_id = documentId)

/-- Join rows of the aggregate query inside `getDocumentGlobalScore`: one
copy of the response row per `responses × queries × hops × hop_documents`
join path that reaches the document, keeping only non-zero feedback. -/
def feedbackJoinRows (db : Db) (documentId : String) : List ResponseRow :=
  db.responses.flatMap fun r =>
    if r.user_feedback ≠ 0 then (pathRowsFor db r documentId).map fun _ => r
    else []

/-- Value of the `CASE WHEN r.user_feedback = 1 THEN 1 WHEN r.user_feedback
= -1 THEN -1 ELSE 0 END` expression. -/
def feedbackSign (r : ResponseRow) : ℤ :=
  if r.user_feedback = 1 then 1 else if r.user_feedback = -1 then -1 else 0

/-- The `raw_score` aggregate of `getDocumentGlobalScore`. -/
def rawScoreOf (db : Db) (documentId : String) : ℤ :=
  ((feedbackJoinRows db documentId).map feedbackSign).sum

/-- The `last_feedback_time` aggregate, with the JavaScript
`result.last_feedback_time || Date.now()` default: a NULL — or 0 — maximum
falls back to the current time. -/
def lastTimeOf (db : Db) (now : ℤ) (documentId : String) : ℤ :=
  let m := (((feedbackJoinRows db documentId).map ResponseRow.timestamp).max?).getD 0
  if m = 0 then now else m

/-- Embedding of `getDocumentGlobalScore`: 0 when the aggregate is NULL,
otherwise `tanh(raw/10)` decayed by `exp(−0.1 · age_days)` with
`age_days = (now − lastTime) / 86400000`. -/
noncomputable def getDocumentGlobalScore (db : Db) (now : ℤ) (documentId : String) : ℝ :=
  if feedbackJoinRows db documentId = [] then 0
  else
    Real.tanh ((rawScoreOf db documentId : ℝ) / 10) *
      Real.exp (-(1/10) * (((now - lastTimeOf db now documentId : ℤ) : ℝ) / 86400000))

/-- Step of `getSuccessfulTemplate` as the hop breakdown row the SQL join
produces. -/
structure TemplateStep where
  hop_order : ℕ
  sub_query : String
  reasoning : String
deriving Repr, DecidableEq

/-- Ascending hop-order relation of the `ORDER BY h.hop_order ASC` clause. -/
def ascHopOrder (a b : TemplateStep) : Prop := a.hop_order ≤ b.hop_order

instance : DecidableRel ascHopOrder := fun a b => by
  unfold ascHopOrder; infer_instance

/-- Embedding of `getSuccessfulTemplate`: rows of the
`queries × responses × hops` join restricted to the query text and to
`user_feedback = 1`, ordered by hop order (the sort is modelled stable; SQL
leaves the order of equal keys open). -/
def getSuccessfulTemplate (db : Db) (queryText : String) : List TemplateStep :=
  let rows :=
    (db.queries.filter fun q => decide (q.text = queryText)).flatMap fun q =>
      (db.responses.filter fun r => decide (r.query_id = q.id) && decide (r.user_feedback = 1)).flatMap fun _ =>
        (db.hops.filter fun h => decide (h.query_id = q.id)).map fun h =>
          TemplateStep.mk h.hop_order h.sub_query h.reasoning
  rows.insertionSort ascHopOrder

/-! ## multihop.service.ts -/

/-- Return record of `performMultiHopSearch`.  `generatedQueries` keeps the
raw JavaScript values pushed into the array (the template replay pushes
strings; the decomposition loop spreads whatever array the parsed LLM
answer held). -/
structure MultiHopResult where
  results : List Hybrid002.HybridSearchResult
  hops : ℕ
  generatedQueries : List Json
  queryId : String
  hopIds : List String
deriving Repr

/-- Mutable state of one `performMultiHopSearch` call: the ledger, the
uuid-draw counter, and the accumulators `hopIds`, `seenIds`, `allResults`
and `generatedQueries`. -/
structure RunSt where
  db : Db
  ctr : ℕ
  hopIds : List String
  seen : List String
  acc : List Hybrid002.HybridSearchResult
  gen : List Json

/-- Draws the next uuid from the supply. -/
def drawId (ids : ℕ → String) (st : RunSt) : String × RunSt :=
  (ids st.ctr, { st with ctr := st.ctr + 1 })

/-- Embedding of the per-hop document loop: every result is logged as a
`hop_documents` row at its rank, and merged into the deduplicated
accumulator when its id is new. -/
def ingestDocs (ids : ℕ → String) (hopId : String) (st : RunSt) :
    List Hybrid002.HybridSearchResult → ℕ → RunSt
  | [], _ => st
  | r :: rest, rank =>
    let (rowId, st₁) := drawId ids st
    let st₂ := { st₁ with db := logHopDocument st₁.db rowId hopId r.id r.semanticScore r.keywordScore rank }
    let st₃ :=
      if r.id ∈ st₂.seen then st₂
      else { st₂ with seen := r.id :: st₂.seen, acc := st₂.acc ++ [r] }
    ingestDocs ids hopId st₃ rest (rank + 1)

/-- Embedding of the template-replay loop (`multihop.service.ts`, lines
52-70). -/
def replaySteps (ids : ℕ → String) (queryId : String)
    (search : String → ℕ → List Hybrid002.HybridSearchResult) (st : RunSt) :
    List TemplateStep → RunSt
  | [] => st
  | step :: rest =>
    let (hopId, st₁) := drawId ids st
    let st₂ := { st₁ with
      hopIds := st₁.hopIds ++ [hopId]
      db := logHop st₁.db hopId queryId step.hop_order step.sub_query "Replay from history" }
    let subResults := search step.sub_query 5
    let st₃ := { st₂ with gen := st₂.gen ++ [Json.str step.sub_query] }
    replaySteps ids queryId search (ingestDocs ids hopId st₃ subResults 1) rest

/-- Rendering of a JavaScript value bound into the `sub_query` column when
the decomposition loop logs a hop for a non-string query; only the `str`
case is reached before the loop aborts on the TypeError inside the search
call. -/
def jsToDbText : Json → String
  | .str s => s
  | .num q => toString q
  | .bool b => toString b
  | .null => "null"
  | .arr _ => ""
  | .obj _ => "[object Object]"

/-- Length of `analysis.queries.length`: defined for arrays and strings,
`undefined` (`none`) otherwise. -/
def jsLength : Json → Option ℕ
  | .arr xs => some xs.length
  | .str s => some s.data.length
  | _ => none

/-- Elements produced by spreading a value with `push(...)` and iterating it
with `for..of`: arrays yield their elements, strings their characters, and
anything else throws a TypeError (`none`). -/
def spreadElems : Json → Option (List Json)
  | .arr xs => some xs
  | .str s => some (s.data.map fun c => Json.str (String.mk [c]))
  | _ => none

/-- Embedding of the fan-out loop over the generated sub-queries: each
element gets a hop logged at order `ch + 1`; a non-string element makes the
search call throw, which the enclosing catch turns into loop exit — the
`Bool` is false exactly on that path. -/
def fanoutHops (ids : ℕ → String) (queryId : String)
    (search : String → ℕ → List Hybrid002.HybridSearchResult) (ch : ℕ) (st : RunSt) :
    List Json → RunSt × Bool
  | [] => (st, true)
  | e :: rest =>
    let (hopId, st₁) := drawId ids st
    let st₂ := { st₁ with
      hopIds := st₁.hopIds ++ [hopId]
      db := logHop st₁.db hopId queryId (ch + 1) (jsToDbText e) "LLM Generated" }
    match e with
    | .str s => fanoutHops ids queryId search ch (ingestDocs ids hopId st₂ (search s 5) 1) rest
    | _ => (st₂, false)

/-- Cleaning applied to the raw LLM analysis before `JSON.parse`: the
global replacement of every ```json marker, then of every ``` marker, then
a trim. -/
def cleanAnalysis (raw : String) : String :=
  String.mk (jsTrim (removeAll "```".data (removeAll "```json".data raw.data)))

/-- Embedding of the sufficiency-evaluation loop (`while (currentHop <
maxHops)`).  `llm` maps the zero-based round number to the raw LLM output
for that round: the context string built by `getContextFromHybridResults`
at threshold 0.4 and the decomposition prompt are consumed only by the LLM
call, so they are absorbed into that oracle (within one run the round
number determines the call).  The fuel only pads the recursion and never
runs out when it starts above `maxHops`.  Returns the final state and the
final value of `currentHop`. -/
def evalLoop (search : String → ℕ → List Hybrid002.HybridSearchResult)
    (llm : ℕ → String) (ids : ℕ → String) (queryId : String) (maxHops : ℕ) :
    ℕ → ℕ → RunSt → RunSt × ℕ
  | ch, 0, st => (st, ch)
  | ch, f + 1, st =>
    if ch < maxHops then
      match jsonParse (cleanAnalysis (llm ch)) with
      | none => (st, ch)
      | some .null => (st, ch)
      | some analysis =>
        if truthy ((jsField analysis "sufficient").getD .null) then (st, ch)
        else
          let queriesOpt := jsField analysis "queries"
          if ¬ jsTruthyOpt queriesOpt then (st, ch)
          else
            match queriesOpt with
            | none => (st, ch)
            | some qv =>
              if jsLength qv = some 0 then (st, ch)
              else
                match spreadElems qv with
                | none => (st, ch)
                | some elems =>
                  let st₁ := { st with gen := st.gen ++ elems }
                  match fanoutHops ids queryId search ch st₁ elems with
                  | (st₂, true) => evalLoop search llm ids queryId maxHops (ch + 1) f st₂
                  | (st₂, false) => (st₂, ch)
    else (st, ch)

/-- Template-replay branch of `performMultiHopSearch` (the body of the
`if (successfulTemplate.length > 0)` arm). -/
def replayBranch (search : String → ℕ → List Hybrid002.HybridSearchResult)
    (ids : ℕ → String) (queryId : String) (st₀ : RunSt) (template : List TemplateStep) :
    MultiHopResult × Db :=
  let st := replaySteps ids queryId search st₀ template
  ({ results := st.acc.insertionSort (descBy Hybrid002.HybridSearchResult.finalScore)
     hops := template.length
     generatedQueries := st.gen
     queryId := queryId
     hopIds := st.hopIds }, st.db)

/-- Initial hop of the standard branch: draw the hop id, log the hop at
order 0 with reasoning "Initial Query", run the search with `topK = 10` and
ingest the documents. -/
def standardInit (search : String → ℕ → List Hybrid002.HybridSearchResult)
    (ids : ℕ → String) (queryId : String) (st₀ : RunSt)
    (originalQuery : String) : RunSt :=
  let (initialHopId, st₁) := drawId ids st₀
  let st₂ := { st₁ with
    hopIds := st₁.hopIds ++ [initialHopId]
    db := logHop st₁.db initialHopId queryId 0 originalQuery "Initial Query" }
  ingestDocs ids initialHopId st₂ (search originalQuery 10) 1

/-- Standard branch of `performMultiHopSearch`: initial hop at order 0,
then the decomposition loop. -/
def standardBranch (search : String → ℕ → List Hybrid002.HybridSearchResult)
    (llm : ℕ → String) (ids : ℕ → String) (queryId : String) (st₀ : RunSt)
    (originalQuery : String) (maxHops : ℕ) : MultiHopResult × Db :=
  let st₃ := standardInit search ids queryId st₀ originalQuery
  let (st₄, finalHop) := evalLoop search llm ids queryId maxHops 0 (maxHops + 1) st₃
  ({ results := st₄.acc.insertionSort (descBy Hybrid002.HybridSearchResult.finalScore)
     hops := finalHop
     generatedQueries := st₄.gen
     queryId := queryId
     hopIds := st₄.hopIds }, st₄.db)

/-- Embedding of `performMultiHopSearch` from `multihop.service.ts`.  The
hybrid service, the LLM and the uuid generator enter as oracles; `queryId`
is the uuid drawn for the query row and `now` the clock at `logQuery`. -/
def performMultiHopSearch (search : String → ℕ → List Hybrid002.HybridSearchResult)
    (llm : ℕ → String) (ids : ℕ → String) (queryId : String) (now : ℤ)
    (db₀ : Db) (originalQuery : String) (maxHops : ℕ) : MultiHopResult × Db :=
  let db₁ := logQuery db₀ queryId originalQuery now
  let st₀ : RunSt := ⟨db₁, 0, [], [], [], []⟩
  let template := getSuccessfulTemplate db₁ originalQuery
  if template.length > 0 then replayBranch search ids queryId st₀ template
  else standardBranch search llm ids queryId st₀ originalQuery maxHops

/-! ## rag.service.ts (not among the staged sources) -/

/-- Modelled from the spec: `shouldUseRag` is true iff the mode is
knowledge, a highest score exists and it reaches the threshold (§4.7 step
4); `rag.service.ts` is not under `src/`. -/
def shouldUseRag (mode : String) (highestScore : Option ℚ) (threshold : ℚ) : Bool :=
  decide (mode = "knowledge") &&
    match highestScore with
    | some h => decide (threshold ≤ h)
    | none => false

/-- Modelled from the spec: `getContextFromHybridResults` keeps the results
with `finalScore ≥ threshold`, concatenates their `metadata.text` values
separated by blank lines, and pairs them with raw source records (§4.7 step
6); `rag.service.ts` is not under `src/`. -/
def getContextFromHybridResults (results : List Hybrid002.HybridSearchResult) (threshold : ℚ) :
    String × List SourceRaw :=
  let kept := results.filter fun r => decide (threshold ≤ r.finalScore)
  (String.intercalate "\n\n" (kept.filterMap fun r => r.metadata.text),
    kept.map fun r => ⟨r.metadata.title, r.metadata.source, r.finalScore⟩)

/-! ## routes/chatHelper.routes.ts -/

/-- One Server-Sent-Events frame of the streaming chat route. -/
inductive SseFrame where
  | meta (mode : String) (sources : List Source) (request_id : String)
  | chunk (data : String)
  | done
  | error (message : String)
deriving Repr, DecidableEq

/-- Fallback text of the streaming knowledge path. -/
def streamFallbackText : String :=
  "I don't have that information in Cogneoverse knowledge."

/-- Embedding of the knowledge branch of `POST /api/chat` (steps 3-5 and
the response assembly): decide `shouldUseRag` from the multi-hop results,
fall back below threshold or on blank context, otherwise answer from the
parsed LLM output.  `llmResponse` is the buffered LLM answer oracle. -/
def chatKnowledge (results : List Hybrid002.HybridSearchResult) (threshold : ℚ)
    (requestId : String) (llmResponse : String) : ChatResponse :=
  let highestScore := Hybrid002.getHighestScore results
  let useRag := shouldUseRag "knowledge" highestScore threshold
  if useRag = false then createFallbackResponse
  else
    let (context, rawSources) := getContextFromHybridResults results threshold
    if jsTrim context.data = [] then createFallbackResponse
    else
      { blocks := parseLlmJsonResponse llmResponse
        sources := formatSources rawSources
        mode := "rag"
        request_id := requestId }

/-- Embedding of the knowledge branch of `POST /api/chat/stream`: below
threshold or on blank context the route writes one fallback chunk and a
done frame; otherwise a meta frame, the LLM chunks verbatim, and done. -/
def streamKnowledge (results : List Hybrid002.HybridSearchResult) (threshold : ℚ)
    (requestId : String) (llmChunks : List String) : List SseFrame :=
  let highestScore := Hybrid002.getHighestScore results
  let useRag := shouldUseRag "knowledge" highestScore threshold
  if useRag = false then [.chunk streamFallbackText, .done]
  else
    let (context, rawSources) := getContextFromHybridResults results threshold
    if jsTrim context.data = [] then [.chunk streamFallbackText, .done]
    else
      .meta "rag" (formatSources rawSources) requestId :: (llmChunks.map .chunk) ++ [.done]

/-! ## routes/feedback.routes.ts -/

/-- Outcome of the feedback route, as far as the validation is concerned. -/
inductive FeedbackOutcome where
  | badRequest
  | success
deriving Repr, DecidableEq

/-- Embedding of the validation of `POST /api/feedback`: the body fields
arrive as possibly-absent JavaScript values, the guard is `!response_id ||
feedback === undefined`, and an accepted body reaches `submitFeedback` and
reports success (the ledger embedding never throws). -/
def feedbackRoute (response_id feedback : Option Json) : FeedbackOutcome :=
  match jsTruthyOpt response_id, feedback with
  | false, _ => .badRequest
  | true, none => .badRequest
  | true, some _ => .success

/-! ## Specification-side definitions used to state the claims -/

/-- Bool test for a `query → hop → hop_document` path from a response to a
document. -/
def reachesDoc (db : Db) (r : ResponseRow) (documentId : String) : Bool :=
  db.queries.any fun q =>
    decide (q.id = r.query_id) &&
      db.hops.any fun h =>
        decide (h.query_id = q.id) &&
          db.hop_documents.any fun hd =>
            decide (hd.hop_id = h.id) && decide (hd.document_id = documentId)

/-- The responses with non-zero feedback transitively linked to a document,
each counted once, in table order — the reading of the spec where `raw`
sums the feedback of each linked response exactly once. -/
def linkedOnce (db : Db) (documentId : String) : List ResponseRow :=
  db.responses.filter fun r => decide (r.user_feedback ≠ 0) && reachesDoc db r documentId

/-- Specification-side reading of `getDocumentGlobalScore` stated in the
claim: the raw sum counts every linked response with non-zero feedback once,
and the decay uses the latest such response timestamp. -/
noncomputable def specGlobalScore (db : Db) (now : ℤ) (documentId : String) : ℝ :=
  let linked := linkedOnce db documentId
  if linked = [] then 0
  else
    let raw : ℤ := (linked.map feedbackSign).sum
    let lastTime : ℤ := ((linked.map ResponseRow.timestamp).max?).getD now
    Real.tanh ((raw : ℝ) / 10) * Real.exp (-(1/10) * (((now - lastTime : ℤ) : ℝ) / 86400000))

/-- The raw score as the code actually aggregates it: each linked response's
±1 weighted by the number of hop-document join paths of its query that reach
the document. -/
def weightedRaw (db : Db) (documentId : String) : ℤ :=
  (db.responses.map fun r =>
    if r.user_feedback ≠ 0 then ((pathRowsFor db r documentId).length : ℤ) * feedbackSign r
    else 0).sum

/-- Corrected description of `getDocumentGlobalScore`: the weighted raw sum,
the latest linked timestamp (with the JavaScript `|| Date.now()` fallback on
a zero maximum), zero when no linked non-zero feedback exists. -/
noncomputable def weightedGlobalScore (db : Db) (now : ℤ) (documentId : String) : ℝ :=
  if linkedOnce db documentId = [] then 0
  else
    let m : ℤ := (((linkedOnce db documentId).map ResponseRow.timestamp).max?).getD 0
    let lastTime : ℤ := if m = 0 then now else m
    Real.tanh ((weightedRaw db documentId : ℝ) / 10) *
      Real.exp (-(1/10) * (((now - lastTime : ℤ) : ℝ) / 86400000))

/-- Lexicographic (code-point) strict order on strings, written out so that
it evaluates by kernel reduction. -/
def charsLt : List Char → List Char → Bool
  | [], [] => false
  | [], _ :: _ => true
  | _ :: _, [] => false
  | a :: as, b :: bs =>
    if a.toNat < b.toNat then true
    else if b.toNat < a.toNat then false
    else charsLt as bs

/-- Lexicographic strict order on strings. -/
def strLt (a b : String) : Bool := charsLt a.data b.data

/-- Ordering the claim asserts for the hybrid result list: descending final
score, ties broken by higher semantic score, then by lexicographic id. -/
def claimOrderC2 (a b : Hybrid002.HybridSearchResult) : Prop :=
  b.finalScore < a.finalScore ∨
    (b.finalScore = a.finalScore ∧ b.semanticScore < a.semanticScore) ∨
    (b.finalScore = a.finalScore ∧ b.semanticScore = a.semanticScore ∧ strLt a.id b.id = true)

instance : DecidableRel claimOrderC2 := fun a b => by
  unfold claimOrderC2; infer_instance

/-- Invariant carried through a multi-hop run: accumulated results have
pairwise-distinct ids, and every accumulated id has been recorded as seen. -/
def resultsInv (st : RunSt) : Prop :=
  (st.acc.map Hybrid002.HybridSearchResult.id).Nodup ∧
    ∀ r ∈ st.acc, r.id ∈ st.seen

/-! ## Concrete inputs used by witnesses and counterexamples -/

/-- Vector-index oracle returning one perfect-score match. -/
def oneMatchIndex : String → ℕ → List Match := fun _ _ => [⟨"a", 1, Metadata.empty⟩]

/-- Vector-index oracle returning two equal-score matches whose ids are in
reverse lexicographic order. -/
def tieMatchIndex : String → ℕ → List Match :=
  fun _ _ => [⟨"b", 1/2, Metadata.empty⟩, ⟨"a", 1/2, Metadata.empty⟩]

/-- Feedback oracle scoring every document 0. -/
def zeroFeedback : String → ℚ := fun _ => 0

/-- The one hybrid result produced from `oneMatchIndex` under the default
weights. -/
def resultW1 : Hybrid002.HybridSearchResult := ⟨"a", 1, 0, 0, 3/5, Metadata.empty, false⟩

/-- Ledger with one response whose single evidence hop has a perfect
average combined score of 2. -/
def perfectHopDb : Db :=
  { queries := [⟨"q1", "what", 0⟩]
    hops := [⟨"h1", "q1", 0, "what", "Initial Query", "pending"⟩]
    hop_documents := [⟨"hd1", "h1", "doc", 1, 1, 1⟩]
    responses := [⟨"r1", "q1", "answer", 0, 0, none⟩]
    evidence_chains := [⟨"e1", "r1", ["h1"], ["doc"], 1⟩] }

/-- Ledger where one positively-rated response is linked to the same
document through two hops of its query. -/
def twoHopDb : Db :=
  { queries := [⟨"q1", "t", 0⟩]
    hops := [⟨"h1", "q1", 0, "s1", "", "pending"⟩, ⟨"h2", "q1", 1, "s2", "", "pending"⟩]
    hop_documents := [⟨"hd1", "h1", "doc", 1, 0, 1⟩, ⟨"hd2", "h2", "doc", 1, 0, 1⟩]
    responses := [⟨"r1", "q1", "answer", 5, 1, none⟩]
    evidence_chains := [] }

/-- Ledger holding one completed, positively-rated query for the template
replay witness. -/
def templateDb : Db :=
  { queries := [⟨"q1", "what is x", 0⟩]
    hops := [⟨"h1", "q1", 0, "sub one", "Initial Query", "pending"⟩]
    hop_documents := []
    responses := [⟨"r1", "q1", "answer", 0, 1, none⟩]
    evidence_chains := [] }

/-- The query row of `templateDb`. -/
def templateQ : QueryRow := ⟨"q1", "what is x", 0⟩

/-- The response row of `templateDb`. -/
def templateR : ResponseRow := ⟨"r1", "q1", "answer", 0, 1, none⟩

/-- The hop rows of `templateDb`. -/
def templateH : List HopRow := [⟨"h1", "q1", 0, "sub one", "Initial Query", "pending"⟩]

/-- Search oracle returning no results. -/
def emptySearch : String → ℕ → List Hybrid002.HybridSearchResult := fun _ _ => []

/-- LLM oracle returning an empty answer. -/
def emptyLlm : ℕ → String := fun _ => ""

/-- Uuid supply enumerating `u0, u1, ...`. -/
def uuidSupply : ℕ → String := fun n => String.mk ('u' :: (Nat.toDigits 10 n))

instance (key : α → ℚ) : IsTotal α (descBy key) :=
  ⟨fun a b => le_total (key b) (key a)⟩

instance (key : α → ℚ) : IsTrans α (descBy key) :=
  ⟨fun _ _ _ hab hbc => le_trans hbc hab⟩

instance : IsTotal TemplateStep ascHopOrder :=
  ⟨fun a b => le_total a.hop_order b.hop_order⟩

instance : IsTrans TemplateStep ascHopOrder :=
  ⟨fun _ _ _ hab hbc => le_trans hab hbc⟩

/-! # Lemmas -/

section HybridLemmas

open Hybrid002 in
/-- Every element of the feedback-aware hybrid search output is the fusion
of some candidate. -/
lemma hybrid002_mem_fuse {index : String → ℕ → List Match} {fb : String → ℚ}
    {query : String} {topK : ℕ} {w : Weights} {stopwords : List String}
    {r : Hybrid002.HybridSearchResult}
    (hr : r ∈ performHybridSearch index fb query topK w stopwords) :
    ∃ c, r = fuseFinal w c := by
  simp only [performHybridSearch] at hr
  have h₁ := List.take_subset _ _ hr
  have h₂ := (List.perm_insertionSort
    (descBy HybridSearchResult.finalScore) _).subset h₁
  obtain ⟨c, -, hc⟩ := List.mem_map.mp h₂
  exact ⟨c, hc.symm⟩

open Hybrid002 in
/-- Final-score formula of the feedback-aware hybrid search, for arbitrary
weights. -/
lemma hybrid002_final_formula {index : String → ℕ → List Match} {fb : String → ℚ}
    {query : String} {topK : ℕ} {w : Weights} {stopwords : List String}
    {r : Hybrid002.HybridSearchResult}
    (hr : r ∈ performHybridSearch index fb query topK w stopwords) :
    r.finalScore = w.alpha * r.semanticScore + w.beta * r.keywordScore +
      w.gamma * r.feedbackScore + (if r.appearsInBoth then 5/100 else 0) := by
  obtain ⟨c, rfl⟩ := hybrid002_mem_fuse hr
  simp [fuseFinal]

open HybridNode in
/-- Final-score formula of the backend-node fusion, by induction over the
match list. -/
lemma hybridNode_fuse_formula {keywords : List String} :
    ∀ {ms : List Match} {seen : List String} {r : HybridNode.HybridSearchResult},
      r ∈ fuseResults keywords ms seen →
      r.finalScore = if r.appearsInBoth then
          min 1 (SEMANTIC_WEIGHT * r.semanticScore + KEYWORD_WEIGHT * r.keywordScore + BOTH_MATCH_BOOST)
        else SEMANTIC_WEIGHT * r.semanticScore + KEYWORD_WEIGHT * r.keywordScore := by
  intro ms
  induction ms with
  | nil => intro seen r hr; simp [fuseResults] at hr
  | cons m rest ih =>
    intro seen r hr
    rw [fuseResults] at hr
    by_cases hs : m.id ∈ seen
    · rw [if_pos hs] at hr
      exact ih hr
    · rw [if_neg hs] at hr
      rcases List.mem_cons.mp hr with heq | htail
      · subst heq; rfl
      · exact ih htail

open HybridNode in
/-- Final-score formula of the backend-node hybrid search output. -/
lemma hybridNode_final_formula {index : String → ℕ → List Match}
    {query : String} {topK : ℕ} {stopwords : List String}
    {r : HybridNode.HybridSearchResult}
    (hr : r ∈ performHybridSearch index query topK stopwords) :
    r.finalScore = if r.appearsInBoth then
        min 1 (SEMANTIC_WEIGHT * r.semanticScore + KEYWORD_WEIGHT * r.keywordScore + BOTH_MATCH_BOOST)
      else SEMANTIC_WEIGHT * r.semanticScore + KEYWORD_WEIGHT * r.keywordScore := by
  simp only [performHybridSearch] at hr
  have h₁ := List.take_subset _ _ hr
  have h₂ := (List.perm_insertionSort
    (descBy HybridSearchResult.finalScore) _).subset h₁
  exact hybridNode_fuse_formula h₂

end HybridLemmas

/-! # Claims -/

/-- Claim C1: for every call to the hybrid retriever's search with the
default weights, every returned HybridResult satisfies
finalScore = 0.6·semanticScore + 0.3·keywordScore + 0.1·feedbackScore +
(0.05 if appearsInBoth else 0), within 1e-9.  (Exact equality holds in the
rational embedding, so the 1e-9 bound follows.) -/
theorem claim_C1 (index : String → ℕ → List Match) (fb : String → ℚ)
    (query : String) (topK : ℕ) (stopwords : List String)
    (r : Hybrid002.HybridSearchResult)
    (hr : r ∈ Hybrid002.performHybridSearch index fb query topK Hybrid002.DEFAULT_WEIGHTS stopwords) :
    |r.finalScore - (6/10 * r.semanticScore + 3/10 * r.keywordScore +
      1/10 * r.feedbackScore + (if r.appearsInBoth then 5/100 else 0))| ≤ 1/1000000000 := by
  have h := hybrid002_final_formula hr
  simp only [Hybrid002.DEFAULT_WEIGHTS] at h
  rw [h, sub_self, abs_zero]
  norm_num

/-- Witness for C1 at a concrete one-match index. -/
theorem claim_C1_witness :
    |resultW1.finalScore - (6/10 * resultW1.semanticScore + 3/10 * resultW1.keywordScore +
      1/10 * resultW1.feedbackScore + (if resultW1.appearsInBoth then 5/100 else 0))| ≤ 1/1000000000 :=
  claim_C1 oneMatchIndex zeroFeedback "" 1 [] resultW1 (by with_unfolding_all decide)

/-- Claim C2 (corrected): the hybrid search output is sorted descending by
finalScore and truncated to at most topK elements; ties keep the stable
order of the underlying matches, with no semantic-score or id tie-break. -/
theorem claim_C2 (index : String → ℕ → List Match) (fb : String → ℚ)
    (query : String) (topK : ℕ) (w : Hybrid002.Weights) (stopwords : List String) :
    (Hybrid002.performHybridSearch index fb query topK w stopwords).Pairwise
      (fun a b => b.finalScore ≤ a.finalScore) ∧
    (Hybrid002.performHybridSearch index fb query topK w stopwords).length ≤ topK := by
  constructor
  · simp only [Hybrid002.performHybridSearch]
    exact List.Pairwise.sublist (List.take_sublist _ _)
      (List.sorted_insertionSort (descBy Hybrid002.HybridSearchResult.finalScore) _)
  · simp only [Hybrid002.performHybridSearch]
    rw [List.length_take]
    exact min_le_left _ _

/-- Counterexample for C2 as stated: with two equal-score matches whose ids
arrive in reverse lexicographic order, the output violates the claimed
semantic-then-id tie-break (the code sorts only by finalScore, stably). -/
theorem claim_C2_counterexample :
    ¬ (Hybrid002.performHybridSearch tieMatchIndex zeroFeedback "" 2
        Hybrid002.DEFAULT_WEIGHTS []).Pairwise claimOrderC2 := by
  with_unfolding_all decide

/-- Claim C10 (corrected): the two hybrid implementations are not
equivalent; each satisfies its own final-score formula — part_002 uses
0.6/0.3/0.1 weights with a flat 0.05 boost and a feedback term, while the
backend-node version uses 0.65/0.35 with a 0.1 boost capped at 1 and no
feedback term. -/
theorem claim_C10 :
    (∀ (index : String → ℕ → List Match) (fb : String → ℚ) (query : String)
        (topK : ℕ) (w : Hybrid002.Weights) (stopwords : List String)
        (r : Hybrid002.HybridSearchResult),
      r ∈ Hybrid002.performHybridSearch index fb query topK w stopwords →
      r.finalScore = w.alpha * r.semanticScore + w.beta * r.keywordScore +
        w.gamma * r.feedbackScore + (if r.appearsInBoth then 5/100 else 0)) ∧
    (∀ (index : String → ℕ → List Match) (query : String) (topK : ℕ)
        (stopwords : List String) (r : HybridNode.HybridSearchResult),
      r ∈ HybridNode.performHybridSearch index query topK stopwords →
      r.finalScore = if r.appearsInBoth then
          min 1 (65/100 * r.semanticScore + 35/100 * r.keywordScore + 1/10)
        else 65/100 * r.semanticScore + 35/100 * r.keywordScore) := by
  constructor
  · intro index fb query topK w stopwords r hr
    exact hybrid002_final_formula hr
  · intro index query topK stopwords r hr
    have h := hybridNode_final_formula hr
    simpa [HybridNode.SEMANTIC_WEIGHT, HybridNode.KEYWORD_WEIGHT,
      HybridNode.BOTH_MATCH_BOOST] using h

/-- Counterexample for C10 as stated: on the same single perfect match the
two implementations return the same id with different final scores (0.65
against 0.6). -/
theorem claim_C10_counterexample :
    ¬ ((HybridNode.performHybridSearch oneMatchIndex "" 1 []).map
        (fun r => (r.id, r.finalScore)) =
      (Hybrid002.performHybridSearch oneMatchIndex zeroFeedback "" 1
        Hybrid002.DEFAULT_WEIGHTS []).map (fun r => (r.id, r.finalScore))) := by
  with_unfolding_all decide

/-- Mapping with a throwing callback preserves length when it succeeds. -/
lemma mapOrThrow_length {f : α → Option β} :
    ∀ {l : List α} {res : List β}, mapOrThrow f l = some res → res.length = l.length := by
  intro l
  induction l with
  | nil => intro res h; simp [mapOrThrow] at h; simp [← h]
  | cons x xs ih =>
    intro res h
    rw [mapOrThrow] at h
    cases hx : f x with
    | none => rw [hx] at h; simp at h
    | some y =>
      rw [hx] at h
      cases hxs : mapOrThrow f xs with
      | none => rw [hxs] at h; simp at h
      | some ys =>
        rw [hxs] at h
        simp only [Option.some.injEq] at h
        subst h
        simp [ih hxs]

/-- The raw-paragraph fallback is never empty. -/
lemma rawParagraph_ne_nil (s : String) : rawParagraph s ≠ [] := by
  simp [rawParagraph]

/-- Claim C3 (corrected): `parseLlmJsonResponse` always returns (the
embedding is total), and its output is empty exactly when the cleaned input
parses as a JSON object whose `blocks` field is the empty array; in every
other case at least one block is returned. -/
theorem claim_C3 (s : String) :
    parseLlmJsonResponse s = [] ↔
      ∃ fields, jsonParse (cleanLlmOutput s) = some (.obj fields) ∧
        jsGet fields "blocks" = some (.arr []) := by
  cases h : jsonParse (cleanLlmOutput s) with
  | none => simp [parseLlmJsonResponse, h, rawParagraph]
  | some v =>
    cases v with
    | null => simp [parseLlmJsonResponse, h, rawParagraph]
    | bool b => simp [parseLlmJsonResponse, h, rawParagraph]
    | num q => simp [parseLlmJsonResponse, h, rawParagraph]
    | str t => simp [parseLlmJsonResponse, h, rawParagraph]
    | arr xs => simp [parseLlmJsonResponse, h, rawParagraph]
    | obj fields =>
      cases hb : jsGet fields "blocks" with
      | none => simp [parseLlmJsonResponse, h, hb, rawParagraph]
      | some bv =>
        cases bv with
        | arr bs =>
          cases bs with
          | nil => simp [parseLlmJsonResponse, h, hb, truthy, mapOrThrow]
          | cons b rest =>
            cases hm : mapOrThrow blockOfJson (b :: rest) with
            | none =>
              simp [parseLlmJsonResponse, h, hb, truthy, hm, rawParagraph]
            | some blocks =>
              have hlen := mapOrThrow_length hm
              have hne : blocks ≠ [] := by
                intro hx
                rw [hx] at hlen
                simp at hlen
              simp [parseLlmJsonResponse, h, hb, truthy, hm, hne, rawParagraph]
        | null => simp [parseLlmJsonResponse, h, hb, truthy, rawParagraph]
        | bool b₂ =>
          cases b₂ <;> simp [parseLlmJsonResponse, h, hb, truthy, rawParagraph]
        | num q =>
          by_cases hq : q = 0 <;> simp [parseLlmJsonResponse, h, hb, truthy, hq, rawParagraph]
        | str t =>
          by_cases ht : t = "" <;> simp [parseLlmJsonResponse, h, hb, truthy, ht, rawParagraph]
        | obj fields₂ => simp [parseLlmJsonResponse, h, hb, truthy, rawParagraph]

/-- Counterexample for C3 as stated: the well-formed LLM output holding an
empty blocks array yields an empty block list, not a list of length ≥ 1. -/
theorem claim_C3_counterexample :
    (parseLlmJsonResponse "\x7b\"blocks\": []\x7d").length = 0 := by
  with_unfolding_all rfl

/-- Claim C9 (corrected): `POST /api/feedback` answers 400 exactly when
`response_id` is missing (or falsy) or `feedback` is undefined; a present
feedback value is never validated against {−1, +1}. -/
theorem claim_C9 (response_id feedback : Option Json) :
    feedbackRoute response_id feedback = .badRequest ↔
      (jsTruthyOpt response_id = false ∨ feedback = none) := by
  cases h : jsTruthyOpt response_id <;> cases feedback <;> simp [feedbackRoute, h]

/-- Counterexample for C9 as stated: the malformed feedback value 5 — not
in {−1, +1} — is accepted and reported as success instead of 400. -/
theorem claim_C9_counterexample :
    feedbackRoute (some (.str "r1")) (some (.num 5)) = .success ∧
      (5 : ℚ) ≠ -1 ∧ (5 : ℚ) ≠ 1 :=
  ⟨rfl, by norm_num, by norm_num⟩

/-- Claim C8: a knowledge-mode request whose best finalScore is below the
similarity threshold, or whose retrieval returned nothing, gets the fixed
fallback response — one "I don't have that information" paragraph, no
sources, mode "rag" — and the streaming path emits exactly one chunk
followed by a done frame. -/
theorem claim_C8 (results : List Hybrid002.HybridSearchResult) (threshold : ℚ)
    (requestId : String) (llmResponse : String) (llmChunks : List String)
    (hlow : Hybrid002.getHighestScore results = none ∨
      ∃ h, Hybrid002.getHighestScore results = some h ∧ h < threshold) :
    chatKnowledge results threshold requestId llmResponse = createFallbackResponse ∧
    createFallbackResponse.blocks =
      [⟨.str "paragraph",
        some (.str ("I don't have that information in Cogneoverse knowledge. " ++
          "Try asking about general topics, or rephrase your question about our internal projects.")),
        none, none⟩] ∧
    createFallbackResponse.sources = [] ∧
    createFallbackResponse.mode = "rag" ∧
    streamKnowledge results threshold requestId llmChunks =
      [.chunk streamFallbackText, .done] := by
  have hrag : shouldUseRag "knowledge" (Hybrid002.getHighestScore results) threshold = false := by
    rcases hlow with hnone | ⟨h, hsome, hlt⟩
    · simp [shouldUseRag, hnone]
    · simp [shouldUseRag, hsome, not_le.mpr hlt]
  refine ⟨?_, rfl, rfl, rfl, ?_⟩
  · simp [chatKnowledge, hrag]
  · simp [streamKnowledge, hrag]

/-- The hop score of a hop carries that hop's id. -/
lemma hopScore_fst {db : Db} {x : String} {p : String × ℚ}
    (h : hopScore db x = some p) : p.1 = x := by
  by_cases hd : (hopDocsOf db x).length = 0
  · simp [hopScore, hd] at h
  · simp only [hopScore] at h
    rw [if_neg hd, Option.some.injEq] at h
    rw [← h]

/-- The weakest-link fold selects the first hop (in fold order) attaining
the minimal average score, provided that minimum beats the initial bound;
hops without documents are skipped. -/
lemma foldl_weakest (db : Db) (l : List String) :
    ∀ (w₀ : Option String) (m₀ : ℚ),
      l.foldl (weakestStep db) (w₀, m₀) =
        match ((l.filterMap (hopScore db)).map Prod.snd).min? with
        | none => (w₀, m₀)
        | some m =>
          if m < m₀ then
            (((l.filterMap (hopScore db)).find? fun p => decide (p.2 = m)).map Prod.fst, m)
          else (w₀, m₀) := by
  induction l with
  | nil => intro w₀ m₀; rfl
  | cons hd t ih =>
    intro w₀ m₀
    rw [List.foldl_cons]
    cases hsc : hopScore db hd with
    | none =>
      have hstep : weakestStep db (w₀, m₀) hd = (w₀, m₀) := by
        simp [weakestStep, hsc]
      rw [List.filterMap_cons_none hsc, hstep, ih]
    | some p =>
      obtain ⟨h₁, a⟩ := p
      replace hsc : hopScore db hd = some (hd, a) := by
        have hfst : h₁ = hd := by simpa using hopScore_fst hsc
        rwa [hfst] at hsc
      have hstep : weakestStep db (w₀, m₀) hd =
          if a < m₀ then (some hd, a) else (w₀, m₀) := by
        simp [weakestStep, hsc]
      rw [List.filterMap_cons_some hsc, hstep, List.map_cons]
      cases hmin : ((t.filterMap (hopScore db)).map Prod.snd).min? with
      | none =>
        have hs : t.filterMap (hopScore db) = [] :=
          List.map_eq_nil_iff.mp (List.min?_eq_none_iff.mp hmin)
        rw [hs]
        by_cases ha : a < m₀
        · rw [if_pos ha, ih, hmin]
          simp [List.min?, List.find?, ha]
        · rw [if_neg ha, ih, hmin]
          simp [List.min?, ha]
      | some mt =>
        rw [List.min?_cons, hmin]
        simp only [Option.elim]
        by_cases hmt : mt < a
        · simp only [min_eq_right (le_of_lt hmt)]
          have hfneg : ((hd, a) :: t.filterMap (hopScore db)).find?
              (fun p => decide (p.2 = mt)) =
              (t.filterMap (hopScore db)).find? (fun p => decide (p.2 = mt)) :=
            List.find?_cons_of_neg _ (by simp [ne_of_gt hmt])
          by_cases hm₀ : mt < m₀
          · by_cases ha : a < m₀
            · rw [if_pos ha, ih, hmin]
              simp [hmt, hm₀, hfneg]
            · rw [if_neg ha, ih, hmin]
              simp [hm₀, hfneg]
          · have ha : ¬ a < m₀ := fun hc => hm₀ (lt_trans hmt hc)
            rw [if_neg ha, ih, hmin]
            simp [hm₀]
        · have hle : a ≤ mt := le_of_not_lt hmt
          simp only [min_eq_left hle]
          by_cases ha : a < m₀
          · have hfpos : ((hd, a) :: t.filterMap (hopScore db)).find?
                (fun p => decide (p.2 = a)) = some (hd, a) :=
              List.find?_cons_of_pos _ (by simp)
            rw [if_pos ha, ih, hmin]
            simp [hmt, ha, hfpos]
          · have hmtm : ¬ mt < m₀ := fun hc => ha (lt_of_le_of_lt hle hc)
            rw [if_neg ha, ih, hmin]
            simp [ha, hmtm]

/-- Claim C4 (corrected): on feedback −1, `submitFeedback` updates the
response row and runs the analysis; the analysis marks failed exactly the
hop selected by `weakestHopSpec` — the first hop in chain order, among
those owning hop-document rows, whose average (dense + sparse) attains the
minimum, and only when that minimum is strictly below 2; otherwise (no
chain, no documents, or minimum ≥ 2) nothing is mutated. -/
theorem claim_C4 :
    (∀ db rid corr, submitFeedback db rid (-1) corr =
      handleNegativeFeedback (applyFeedbackUpdate db rid (-1) corr) rid) ∧
    (∀ db rid, handleNegativeFeedback db rid =
      match db.evidence_chains.find? fun c => decide (c.response_id = rid) with
      | none => db
      | some chain =>
        match weakestHopSpec db chain.hop_ids with
        | none => db
        | some h => if h = "" then db else markHopFailed db h) := by
  constructor
  · intro db rid corr
    simp [submitFeedback]
  · intro db rid
    cases hc : db.evidence_chains.find? fun c => decide (c.response_id = rid) with
    | none => simp [handleNegativeFeedback, hc]
    | some chain =>
      simp only [handleNegativeFeedback, weakestHopSpec, hc]
      rw [foldl_weakest]
      cases hmin : ((chain.hop_ids.filterMap (hopScore db)).map Prod.snd).min? with
      | none => rfl
      | some m =>
        by_cases hm : m < 2
        · cases hf : (chain.hop_ids.filterMap (hopScore db)).find? fun p => decide (p.2 = m) with
          | none => simp [hm, hf]
          | some p => simp [hm, hf]
        · simp [hm]

/-- A response value occurs among the join rows exactly when it is a linked
response with non-zero feedback. -/
lemma mem_feedbackJoinRows {db : Db} {d : String} {r : ResponseRow} :
    r ∈ feedbackJoinRows db d ↔
      r ∈ db.responses ∧ r.user_feedback ≠ 0 ∧ pathRowsFor db r d ≠ [] := by
  unfold feedbackJoinRows
  rw [List.mem_flatMap]
  constructor
  · rintro ⟨r', hr', hmem⟩
    by_cases hfb : r'.user_feedback ≠ 0
    · rw [if_pos hfb] at hmem
      obtain ⟨hdrow, hhd, heq⟩ := List.mem_map.mp hmem
      rw [← heq]
      refine ⟨hr', hfb, fun hnil => ?_⟩
      rw [hnil] at hhd
      exact List.not_mem_nil hdrow hhd
    · rw [if_neg hfb] at hmem
      exact absurd hmem (List.not_mem_nil r)
  · rintro ⟨hr, hfb, hne⟩
    refine ⟨r, hr, ?_⟩
    rw [if_pos hfb]
    obtain ⟨x, hx⟩ := List.exists_mem_of_ne_nil _ hne
    exact List.mem_map.mpr ⟨x, hx, rfl⟩

/-- The Bool path test agrees with non-emptiness of the path rows. -/
lemma reachesDoc_iff {db : Db} {r : ResponseRow} {d : String} :
    reachesDoc db r d = true ↔ pathRowsFor db r d ≠ [] := by
  constructor
  · intro hreach
    simp only [reachesDoc, List.any_eq_true, Bool.and_eq_true, decide_eq_true_iff] at hreach
    obtain ⟨q, hq, hqid, h, hh, hhq, hdrow, hhd, hhop, hdoc⟩ := hreach
    intro hnil
    have hmem : hdrow ∈ pathRowsFor db r d := by
      simp only [pathRowsFor, List.mem_flatMap, List.mem_filter, decide_eq_true_iff,
        Bool.and_eq_true]
      exact ⟨q, ⟨hq, hqid⟩, h, ⟨hh, hhq⟩, hhd, hhop, hdoc⟩
    rw [hnil] at hmem
    exact List.not_mem_nil hdrow hmem
  · intro hne
    obtain ⟨x, hx⟩ := List.exists_mem_of_ne_nil _ hne
    simp only [pathRowsFor, List.mem_flatMap, List.mem_filter, decide_eq_true_iff,
      Bool.and_eq_true] at hx
    obtain ⟨q, ⟨hq, hqid⟩, h, ⟨hh, hhq⟩, hhd, hhop, hdoc⟩ := hx
    simp only [reachesDoc, List.any_eq_true, Bool.and_eq_true, decide_eq_true_iff]
    exact ⟨q, hq, hqid, h, hh, hhq, x, hhd, hhop, hdoc⟩

/-- Membership in the deduplicated linked-response list. -/
lemma mem_linkedOnce {db : Db} {d : String} {r : ResponseRow} :
    r ∈ linkedOnce db d ↔
      r ∈ db.responses ∧ r.user_feedback ≠ 0 ∧ pathRowsFor db r d ≠ [] := by
  unfold linkedOnce
  rw [List.mem_filter]
  simp only [Bool.and_eq_true, decide_eq_true_iff, reachesDoc_iff, and_assoc]

/-- The SQL SUM equals the per-response path-weighted sum. -/
lemma rawScoreOf_eq_weighted (db : Db) (d : String) :
    rawScoreOf db d = weightedRaw db d := by
  unfold rawScoreOf weightedRaw feedbackJoinRows
  rw [List.map_flatMap, List.flatMap_def, List.sum_flatten, List.map_map]
  congr 1
  apply List.map_congr_left
  intro r _
  by_cases hfb : r.user_feedback ≠ 0
  · simp only [Function.comp, if_pos hfb, List.map_map]
    rw [show (feedbackSign ∘ fun _ => r) = fun _ : HopDocRow => feedbackSign r from rfl,
      List.map_const', List.sum_replicate, nsmul_eq_mul]
  · simp only [Function.comp, if_neg hfb]
    simp

/-- Two integer lists with the same members have the same maximum. -/
lemma max?_congr_int {l₁ l₂ : List ℤ} (h : ∀ a, a ∈ l₁ ↔ a ∈ l₂) :
    l₁.max? = l₂.max? := by
  haveI : Std.Antisymm (fun x1 x2 : ℤ => x1 ≤ x2) := ⟨fun hab hba => le_antisymm hab hba⟩
  cases h₁ : l₁.max? with
  | none =>
    rw [List.max?_eq_none_iff] at h₁
    symm
    rw [List.max?_eq_none_iff, List.eq_nil_iff_forall_not_mem]
    intro a ha
    have := (h a).mpr ha
    rw [h₁] at this
    exact List.not_mem_nil a this
  | some a =>
    obtain ⟨ha₁, hub₁⟩ := (List.max?_eq_some_iff (fun x => le_refl x) max_choice
      (fun a b c => max_le_iff)).mp h₁
    cases h₂ : l₂.max? with
    | none =>
      rw [List.max?_eq_none_iff] at h₂
      have := (h a).mp ha₁
      rw [h₂] at this
      exact absurd this (List.not_mem_nil a)
    | some b =>
      obtain ⟨hb₂, hub₂⟩ := (List.max?_eq_some_iff (fun x => le_refl x) max_choice
        (fun a b c => max_le_iff)).mp h₂
      have hab : a ≤ b := hub₂ a ((h a).mp ha₁)
      have hba : b ≤ a := hub₁ b ((h b).mpr hb₂)
      rw [le_antisymm hab hba]

/-- Strict monotonicity of the hyperbolic tangent, via the subtraction
formula for sinh. -/
lemma tanh_lt_tanh_of_lt {a b : ℝ} (h : a < b) : Real.tanh a < Real.tanh b := by
  rw [Real.tanh_eq_sinh_div_cosh, Real.tanh_eq_sinh_div_cosh,
    div_lt_div_iff₀ (Real.cosh_pos a) (Real.cosh_pos b)]
  have h₁ : 0 < Real.sinh (b - a) := Real.sinh_pos_iff.mpr (by linarith)
  rw [Real.sinh_sub] at h₁
  nlinarith [Real.cosh_pos a, Real.cosh_pos b]

/-- Claim C6 (corrected): `getDocumentGlobalScore` equals
tanh(raw/10)·exp(−0.1·age_days) where raw counts each linked non-zero
feedback response once per hop-document join path of its query reaching the
document (not once per response), the decay uses the latest linked response
timestamp (with the current time substituted when that maximum is 0, the
JavaScript falsiness artefact of `|| Date.now()`), and 0 is returned when
no linked non-zero feedback exists. -/
theorem claim_C6 (db : Db) (now : ℤ) (d : String) :
    getDocumentGlobalScore db now d = weightedGlobalScore db now d := by
  have hmem : ∀ r, r ∈ feedbackJoinRows db d ↔ r ∈ linkedOnce db d := fun r =>
    mem_feedbackJoinRows.trans mem_linkedOnce.symm
  have hnil : feedbackJoinRows db d = [] ↔ linkedOnce db d = [] := by
    simp only [List.eq_nil_iff_forall_not_mem]
    exact forall_congr' fun a => not_congr (hmem a)
  have hts : ((feedbackJoinRows db d).map ResponseRow.timestamp).max? =
      ((linkedOnce db d).map ResponseRow.timestamp).max? := by
    apply max?_congr_int
    intro a
    simp only [List.mem_map]
    exact exists_congr fun r => and_congr_left fun _ => hmem r
  simp only [getDocumentGlobalScore, weightedGlobalScore, lastTimeOf]
  rw [rawScoreOf_eq_weighted, hts]
  exact if_congr hnil rfl rfl

/-- Counterexample for C6 as stated: with one positively-rated response
linked to the document through two hops of the same query, the code doubles
the raw score (tanh(2/10)), while the claimed per-response sum gives
tanh(1/10). -/
theorem claim_C6_counterexample :
    getDocumentGlobalScore twoHopDb 5 "doc" ≠ specGlobalScore twoHopDb 5 "doc" := by
  have h₁ : feedbackJoinRows twoHopDb "doc" =
      [⟨"r1", "q1", "answer", 5, 1, none⟩, ⟨"r1", "q1", "answer", 5, 1, none⟩] := by
    with_unfolding_all decide
  have h₂ : rawScoreOf twoHopDb "doc" = 2 := by with_unfolding_all decide
  have h₃ : lastTimeOf twoHopDb 5 "doc" = 5 := by with_unfolding_all decide
  have h₄ : linkedOnce twoHopDb "doc" = [⟨"r1", "q1", "answer", 5, 1, none⟩] := by
    with_unfolding_all decide
  have hL : getDocumentGlobalScore twoHopDb 5 "doc" = Real.tanh (1/5) := by
    simp only [getDocumentGlobalScore, h₂, h₃]
    rw [if_neg (by rw [h₁]; simp)]
    norm_num [Real.exp_zero]
  have hR : specGlobalScore twoHopDb 5 "doc" = Real.tanh (1/10) := by
    simp only [specGlobalScore, h₄]
    rw [if_neg (by simp)]
    norm_num [feedbackSign, List.max?, Real.exp_zero]
  rw [hL, hR]
  exact ne_of_gt (tanh_lt_tanh_of_lt (by norm_num))

/-- Logging hop documents never touches the generated-queries accumulator. -/
lemma ingestDocs_gen (ids : ℕ → String) (hopId : String) :
    ∀ (rs : List Hybrid002.HybridSearchResult) (rank : ℕ) (st : RunSt),
      (ingestDocs ids hopId st rs rank).gen = st.gen := by
  intro rs
  induction rs with
  | nil => intro rank st; rfl
  | cons r rest ih =>
    intro rank st
    simp only [ingestDocs, drawId]
    rw [ih]
    split <;> rfl

/-- The replay loop appends exactly the template's sub-queries, in template
order, to the generated-queries accumulator. -/
lemma replaySteps_gen (ids : ℕ → String) (queryId : String)
    (search : String → ℕ → List Hybrid002.HybridSearchResult) :
    ∀ (l : List TemplateStep) (st : RunSt),
      (replaySteps ids queryId search st l).gen =
        st.gen ++ l.map fun t => Json.str t.sub_query := by
  intro l
  induction l with
  | nil => intro st; simp [replaySteps]
  | cons step rest ih =>
    intro st
    simp only [replaySteps, drawId]
    rw [ih, ingestDocs_gen]
    simp

/-- After logging the fresh query row, the successful-template lookup
returns exactly the sorted hop breakdown of the unique matching completed
query. -/
lemma getSuccessfulTemplate_after_log
    (db₀ : Db) (queryId q : String) (now : ℤ) (Q : QueryRow) (R : ResponseRow) (H : List HopRow)
    (hQ : db₀.queries.filter (fun q' => decide (q'.text = q)) = [Q])
    (hR : db₀.responses.filter
      (fun r => decide (r.query_id = Q.id) && decide (r.user_feedback = 1)) = [R])
    (hFresh : ∀ r ∈ db₀.responses, r.query_id ≠ queryId)
    (hH : db₀.hops.filter (fun h => decide (h.query_id = Q.id)) = H) :
    getSuccessfulTemplate (logQuery db₀ queryId q now) q =
      (H.map fun h => TemplateStep.mk h.hop_order h.sub_query h.reasoning).insertionSort
        ascHopOrder := by
  unfold getSuccessfulTemplate logQuery
  simp only [List.filter_append]
  rw [hQ]
  rw [show List.filter (fun q' => decide (q'.text = q)) [QueryRow.mk queryId q now] =
    [QueryRow.mk queryId q now] from by simp]
  rw [List.flatMap_append]
  simp only [List.flatMap_cons, List.flatMap_nil, List.append_nil]
  rw [hR]
  have hempty : db₀.responses.filter
      (fun r => decide (r.query_id = (QueryRow.mk queryId q now).id) &&
        decide (r.user_feedback = 1)) = [] := by
    rw [List.filter_eq_nil_iff]
    intro r hr
    simp [hFresh r hr]
  rw [hempty]
  simp only [List.flatMap_cons, List.flatMap_nil, List.flatMap_append, List.append_nil]
  rw [hH]

/-- Claim C5: when a query with identical text previously completed with a
positively-rated response and hop breakdown H (and the new query id is
fresh), `run(q)` replays the template: it reports |H| hops, its generated
queries are the sub-queries of H sorted ascending by hopOrder, and the
whole call is independent of the LLM oracle — sufficiency evaluation is
bypassed. -/
theorem claim_C5 (search : String → ℕ → List Hybrid002.HybridSearchResult)
    (llm : ℕ → String) (ids : ℕ → String) (queryId : String) (now : ℤ)
    (db₀ : Db) (q : String) (maxHops : ℕ)
    (Q : QueryRow) (R : ResponseRow) (H : List HopRow)
    (hQ : db₀.queries.filter (fun q' => decide (q'.text = q)) = [Q])
    (hR : db₀.responses.filter
      (fun r => decide (r.query_id = Q.id) && decide (r.user_feedback = 1)) = [R])
    (hFresh : ∀ r ∈ db₀.responses, r.query_id ≠ queryId)
    (hH : db₀.hops.filter (fun h => decide (h.query_id = Q.id)) = H)
    (hne : H ≠ []) :
    (performMultiHopSearch search llm ids queryId now db₀ q maxHops).1.hops = H.length ∧
    (performMultiHopSearch search llm ids queryId now db₀ q maxHops).1.generatedQueries =
      ((H.map fun h => TemplateStep.mk h.hop_order h.sub_query h.reasoning).insertionSort
        ascHopOrder).map (fun t => Json.str t.sub_query) ∧
    ((H.map fun h => TemplateStep.mk h.hop_order h.sub_query h.reasoning).insertionSort
      ascHopOrder).Pairwise ascHopOrder ∧
    ((H.map fun h => TemplateStep.mk h.hop_order h.sub_query h.reasoning).insertionSort
      ascHopOrder).Perm (H.map fun h => TemplateStep.mk h.hop_order h.sub_query h.reasoning) ∧
    ∀ llm', performMultiHopSearch search llm' ids queryId now db₀ q maxHops =
      performMultiHopSearch search llm ids queryId now db₀ q maxHops := by
  have htemp := getSuccessfulTemplate_after_log db₀ queryId q now Q R H hQ hR hFresh hH
  have hlen : ((H.map fun h => TemplateStep.mk h.hop_order h.sub_query h.reasoning).insertionSort
      ascHopOrder).length = H.length := by
    rw [(List.perm_insertionSort _ _).length_eq, List.length_map]
  have hpos : 0 < (getSuccessfulTemplate (logQuery db₀ queryId q now) q).length := by
    rw [htemp, hlen]
    exact List.length_pos.mpr (fun hcon => hne hcon)
  have hunf : ∀ (llmx : ℕ → String),
      performMultiHopSearch search llmx ids queryId now db₀ q maxHops =
        replayBranch search ids queryId ⟨logQuery db₀ queryId q now, 0, [], [], [], []⟩
          (getSuccessfulTemplate (logQuery db₀ queryId q now) q) := by
    intro llmx
    simp only [performMultiHopSearch]
    rw [if_pos hpos]
  refine ⟨?_, ?_, ?_, ?_, ?_⟩
  · rw [hunf llm]
    simp only [replayBranch]
    rw [htemp, hlen]
  · rw [hunf llm]
    simp only [replayBranch]
    rw [replaySteps_gen, htemp]
    simp
  · exact List.sorted_insertionSort ascHopOrder _
  · exact List.perm_insertionSort _ _
  · intro llm'
    rw [hunf llm', hunf llm]

/-- Witness for C5 on a one-hop completed history. -/
theorem claim_C5_witness :
    (performMultiHopSearch emptySearch emptyLlm uuidSupply "qid" 0 templateDb "what is x" 1).1.hops =
      templateH.length ∧
    (performMultiHopSearch emptySearch emptyLlm uuidSupply "qid" 0 templateDb "what is x" 1).1.generatedQueries =
      ((templateH.map fun h => TemplateStep.mk h.hop_order h.sub_query h.reasoning).insertionSort
        ascHopOrder).map (fun t => Json.str t.sub_query) ∧
    ((templateH.map fun h => TemplateStep.mk h.hop_order h.sub_query h.reasoning).insertionSort
      ascHopOrder).Pairwise ascHopOrder ∧
    ((templateH.map fun h => TemplateStep.mk h.hop_order h.sub_query h.reasoning).insertionSort
      ascHopOrder).Perm (templateH.map fun h => TemplateStep.mk h.hop_order h.sub_query h.reasoning) ∧
    ∀ llm', performMultiHopSearch emptySearch llm' uuidSupply "qid" 0 templateDb "what is x" 1 =
      performMultiHopSearch emptySearch emptyLlm uuidSupply "qid" 0 templateDb "what is x" 1 :=
  claim_C5 emptySearch emptyLlm uuidSupply "qid" 0 templateDb "what is x" 1
    templateQ templateR templateH
    (by with_unfolding_all decide) (by with_unfolding_all decide)
    (by with_unfolding_all decide) (by with_unfolding_all decide)
    (by with_unfolding_all decide)

/-- The document-ingestion loop preserves the dedup invariant. -/
lemma ingestDocs_inv (ids : ℕ → String) (hopId : String) :
    ∀ (rs : List Hybrid002.HybridSearchResult) (rank : ℕ) (st : RunSt),
      resultsInv st → resultsInv (ingestDocs ids hopId st rs rank) := by
  intro rs
  induction rs with
  | nil => intro rank st hinv; exact hinv
  | cons r rest ih =>
    intro rank st hinv
    simp only [ingestDocs, drawId]
    apply ih
    by_cases hseen : r.id ∈ st.seen
    · rw [if_pos hseen]
      exact hinv
    · rw [if_neg hseen]
      obtain ⟨hnd, hsub⟩ := hinv
      constructor
      · rw [List.map_append]
        rw [List.nodup_append]
        refine ⟨hnd, List.nodup_singleton _, ?_⟩
        intro x hx hxr
        rw [List.map_cons, List.map_nil, List.mem_singleton] at hxr
        obtain ⟨y, hy, hyid⟩ := List.mem_map.mp hx
        exact hseen (hxr ▸ hyid ▸ hsub y hy)
      · intro x hx
        rcases List.mem_append.mp hx with hxl | hxr
        · exact List.mem_cons_of_mem _ (hsub x hxl)
        · rw [List.mem_singleton] at hxr
          rw [hxr]
          exact List.mem_cons_self _ _

/-- The replay loop preserves the dedup invariant. -/
lemma replaySteps_inv (ids : ℕ → String) (queryId : String)
    (search : String → ℕ → List Hybrid002.HybridSearchResult) :
    ∀ (l : List TemplateStep) (st : RunSt),
      resultsInv st → resultsInv (replaySteps ids queryId search st l) := by
  intro l
  induction l with
  | nil => intro st hinv; exact hinv
  | cons step rest ih =>
    intro st hinv
    simp only [replaySteps, drawId]
    exact ih _ (ingestDocs_inv _ _ _ _ _ hinv)

/-- The fan-out loop preserves the dedup invariant (also on the throwing
exit). -/
lemma fanoutHops_inv (ids : ℕ → String) (queryId : String)
    (search : String → ℕ → List Hybrid002.HybridSearchResult) (ch : ℕ) :
    ∀ (elems : List Json) (st : RunSt),
      resultsInv st → resultsInv (fanoutHops ids queryId search ch st elems).1 := by
  intro elems
  induction elems with
  | nil => intro st hinv; exact hinv
  | cons e rest ih =>
    intro st hinv
    simp only [fanoutHops, drawId]
    cases e with
    | str s => exact ih _ (ingestDocs_inv _ _ _ _ _ hinv)
    | null => exact hinv
    | bool b => exact hinv
    | num n => exact hinv
    | arr xs => exact hinv
    | obj fs => exact hinv

/-- The sufficiency-evaluation loop preserves the dedup invariant. -/
lemma evalLoop_inv (search : String → ℕ → List Hybrid002.HybridSearchResult)
    (llm : ℕ → String) (ids : ℕ → String) (queryId : String) (maxHops : ℕ) :
    ∀ (fuel ch : ℕ) (st : RunSt),
      resultsInv st → resultsInv (evalLoop search llm ids queryId maxHops ch fuel st).1 := by
  intro fuel
  induction fuel with
  | zero => intro ch st hinv; exact hinv
  | succ f ih =>
    intro ch st hinv
    rw [evalLoop]
    split
    · split
      · exact hinv
      · exact hinv
      · split
        · exact hinv
        · dsimp only
          split
          · exact hinv
          · split
            · exact hinv
            · split
              · exact hinv
              · split
                · exact hinv
                · next elems hsp =>
                  split
                  · next st₂ heq =>
                    apply ih
                    have hfi := fanoutHops_inv ids queryId search ch elems
                      { st with gen := st.gen ++ elems } hinv
                    rw [heq] at hfi
                    exact hfi
                  · next st₂ heq =>
                    have hfi := fanoutHops_inv ids queryId search ch elems
                      { st with gen := st.gen ++ elems } hinv
                    rw [heq] at hfi
                    exact hfi
    · exact hinv

/-- The initial hop preserves the dedup invariant. -/
lemma standardInit_inv (search : String → ℕ → List Hybrid002.HybridSearchResult)
    (ids : ℕ → String) (queryId : String) (st₀ : RunSt) (originalQuery : String)
    (hinv : resultsInv st₀) :
    resultsInv (standardInit search ids queryId st₀ originalQuery) := by
  simp only [standardInit, drawId]
  exact ingestDocs_inv _ _ _ _ _ hinv

/-- Claim C7: after every multi-hop run, the returned results contain no two
elements with the same id, for every search oracle, LLM oracle, uuid supply
and starting ledger. -/
theorem claim_C7 (search : String → ℕ → List Hybrid002.HybridSearchResult)
    (llm : ℕ → String) (ids : ℕ → String) (queryId : String) (now : ℤ)
    (db₀ : Db) (q : String) (maxHops : ℕ) :
    ((performMultiHopSearch search llm ids queryId now db₀ q maxHops).1.results.map
      Hybrid002.HybridSearchResult.id).Nodup := by
  have hinv₀ : resultsInv ⟨logQuery db₀ queryId q now, 0, [], [], [], []⟩ :=
    ⟨List.nodup_nil, by intro r hr; exact absurd hr (List.not_mem_nil r)⟩
  have hsorted : ∀ (st : RunSt), resultsInv st →
      ((st.acc.insertionSort (descBy Hybrid002.HybridSearchResult.finalScore)).map
        Hybrid002.HybridSearchResult.id).Nodup := by
    intro st hinv
    exact (((List.perm_insertionSort (descBy Hybrid002.HybridSearchResult.finalScore)
      st.acc).map Hybrid002.HybridSearchResult.id).nodup_iff).mpr hinv.1
  simp only [performMultiHopSearch]
  by_cases htempl :
      0 < (getSuccessfulTemplate (logQuery db₀ queryId q now) q).length
  · rw [if_pos htempl]
    simp only [replayBranch]
    exact hsorted _ (replaySteps_inv _ _ _ _ _ hinv₀)
  · rw [if_neg htempl]
    simp only [standardBranch]
    have hinv₃ := standardInit_inv search ids queryId
      ⟨logQuery db₀ queryId q now, 0, [], [], [], []⟩ q hinv₀
    exact hsorted _ (evalLoop_inv search llm ids queryId maxHops (maxHops + 1) 0 _ hinv₃)

/-- Counterexample for C4 as stated: the unique evidence hop has the
minimal average combined score (exactly 2.0), yet no hop is marked failed,
because the fold starts its running minimum at 2.0 and compares strictly. -/
theorem claim_C4_counterexample :
    ((submitFeedback perfectHopDb "r1" (-1) none).hops.map HopRow.status) = ["pending"] ∧
      hopScore perfectHopDb "h1" = some ("h1", 2) := by
  constructor
  · with_unfolding_all decide
  · with_unfolding_all decide

/-- Witness for C8 on an empty retrieval. -/
theorem claim_C8_witness :
    chatKnowledge [] (1/2) "req" "" = createFallbackResponse ∧
    createFallbackResponse.blocks =
      [⟨.str "paragraph",
        some (.str ("I don't have that information in Cogneoverse knowledge. " ++
          "Try asking about general topics, or rephrase your question about our internal projects.")),
        none, none⟩] ∧
    createFallbackResponse.sources = [] ∧
    createFallbackResponse.mode = "rag" ∧
    streamKnowledge [] (1/2) "req" [] = [.chunk streamFallbackText, .done] :=
  claim_C8 [] (1/2) "req" "" [] (Or.inl rfl)

end NeoAgent
